import Mathlib

/-!
Verification of the conversational code-generation orchestrator.

The embedding follows the two source files:
* `src/unnamed/part_000` — the server action `submitUserInput` with its inner
  `processEvents` routine (windowing, decision branch, inquiry branch,
  generation retry loop, stream finalization);
* `src/lib/code-gen/agents/writer.tsx` — the `writer` generation agent that
  folds a model event stream into an attempt result.

Streams (`createStreamableValue` / `createStreamableUI`) are embedded as the
trace of operations issued to them; the model and the agents whose bodies are
not in the sources are parameters of the embedding.
-/

namespace NextGen

/-- A tool invocation recorded from a `tool-call` stream event
(`ToolCallPart` in the source); its payload is opaque here. -/
structure ToolCall where
  id : Nat
  deriving DecidableEq, Repr, Inhabited

/-- A tool outcome carried by a `tool-result` stream event
(`ToolResultPart` in the source); its payload is opaque here. -/
structure ToolResult where
  id : Nat
  deriving DecidableEq, Repr, Inhabited

/-- Content of a `CoreMessage`: a plain string (user turns, the final
assistant commit), the part list `[{type:"text",text}, ...toolCalls]` pushed
by `writer`, or the tool-result part list of a tool turn. -/
inductive MsgContent where
  | str (s : String)
  | assistantParts (text : String) (toolCalls : List ToolCall)
  | toolParts (results : List ToolResult)
  deriving DecidableEq, Repr, Inhabited

/-- One conversation turn (`CoreMessage` in the source). Roles are the
literal strings used by the code ("user", "assistant", "tool", ...). -/
structure CoreMessage where
  role : String
  content : MsgContent
  deriving DecidableEq, Repr, Inhabited

/-- The renderable nodes the orchestrator and writer push into the UI
stream; their visual payload is opaque, only their identity matters. -/
inductive UINode where
  | spinnerThinking
  | codeSection
  | generatingSpinner
  | nullNode
  | followupSection
  | agentNode (k : Nat)
  deriving DecidableEq, Repr, Inhabited

/-- One event of the model's `fullStream` consumed by `writer`
(`text-delta`, `tool-call`, `tool-result`, `error`). -/
inductive Delta where
  | textDelta (s : String)
  | toolCall (c : ToolCall)
  | toolResult (r : ToolResult)
  | error
  deriving DecidableEq, Repr, Inhabited

/-- An operation issued to a `createStreamableValue` stream: `update(v)` or
`done(v?)` (the optional argument of `done`). -/
inductive ValOp (α : Type) where
  | update (v : α)
  | done (v : Option α)
  deriving DecidableEq, Repr

/-- An operation issued to a `createStreamableUI` stream. -/
inductive UIOp where
  | update (n : UINode)
  | append (n : UINode)
  | done
  deriving DecidableEq, Repr, Inhabited

/-- The fixed notice `writer` appends to the text buffer on an `error`
stream event. -/
def errorNotice : String := "\nError occurred while executing the tool"

/-- The mutable state of one `writer` call while it folds the model stream:
`fullResponse`, `toolCalls`, `toolResponses`, `hasError`, plus the traces of
operations it has issued to `uiStream` and `codeStream`. -/
structure WriterState where
  fullResponse : String
  toolCalls : List ToolCall
  toolResponses : List ToolResult
  hasError : Bool
  uiOps : List UIOp
  codeOps : List (ValOp String)
  deriving DecidableEq, Repr, Inhabited

/-- `writer`'s state before the first stream event. -/
def initWriterState : WriterState :=
  { fullResponse := "", toolCalls := [], toolResponses := [], hasError := false,
    uiOps := [], codeOps := [] }

/-- One iteration of `writer`'s `for await (const delta of result.fullStream)`
switch. The `tool-result` case of the source is commented out, so a
`toolResult` event leaves the state unchanged. -/
def writerStep (st : WriterState) (d : Delta) : WriterState :=
  match d with
  | .textDelta s =>
    if 0 < s.length then
      let uiOps :=
        if st.fullResponse.length = 0 ∧ 0 < s.length then
          st.uiOps ++ [UIOp.update UINode.codeSection, UIOp.append UINode.generatingSpinner]
        else st.uiOps
      let fr := st.fullResponse ++ s
      { st with fullResponse := fr, uiOps := uiOps,
                codeOps := st.codeOps ++ [ValOp.update fr] }
    else st
  | .toolCall c => { st with toolCalls := st.toolCalls ++ [c] }
  | .toolResult _ => st
  | .error => { st with hasError := true, fullResponse := st.fullResponse ++ errorNotice }

/-- The fold of `writer` over a whole model stream. -/
def writerFold (stream : List Delta) : WriterState :=
  stream.foldl writerStep initWriterState

/-- The text buffer accumulated by one `writer` attempt over a given model
stream (it does not depend on the message list). -/
def attemptText (stream : List Delta) : String :=
  (writerFold stream).fullResponse

/-- What one `writer` call returns and the effects it leaves behind:
the returned fields, the stream traces, and the message list after the
`messages.push` calls at the end of `writer`. -/
structure WriterResult where
  fullResponse : String
  hasError : Bool
  toolCalls : List ToolCall
  toolResponses : List ToolResult
  uiOps : List UIOp
  codeOps : List (ValOp String)
  messagesOut : List CoreMessage
  deriving DecidableEq, Repr, Inhabited

/-- One full `writer` call: fold the stream, issue the trailing
`uiStream.update(null)` that clears the spinner, push the assistant turn
(text + tool calls), and push a tool turn only when `toolResponses` is
non-empty. -/
def writerRun (messages : List CoreMessage) (stream : List Delta) : WriterResult :=
  let st := writerFold stream
  let msgs := messages ++
    [{ role := "assistant", content := MsgContent.assistantParts st.fullResponse st.toolCalls }]
  let msgs := if 0 < st.toolResponses.length then
      msgs ++ [{ role := "tool", content := MsgContent.toolParts st.toolResponses }]
    else msgs
  { fullResponse := st.fullResponse, hasError := st.hasError,
    toolCalls := st.toolCalls, toolResponses := st.toolResponses,
    uiOps := st.uiOps ++ [UIOp.update UINode.nullNode],
    codeOps := st.codeOps, messagesOut := msgs }

/-- `maxMessages` of `submitUserInput`. -/
def maxMessages : Nat := 10

/-- The sentinel user input used when the caller skips classification. -/
def skipSentinel : String := "\x7b\"action\": \"skip\"\x7d"

/-- `messages.splice(0, Math.max(messages.length - maxMessages, 0))`:
keep only the most recent `maxMessages` turns. -/
def window (history : List CoreMessage) : List CoreMessage :=
  history.drop (history.length - maxMessages)

/-- The state of `submitUserInput` just before `processEvents` starts:
`messages` is the local array after the optional `push`, `state` the AI
state after the optional `aiState.update`. The local array is the same
array object as the AI state, so when no `update` is issued the state keeps
aliasing `messages` (`aliased = true`); when `update` is issued it spreads
the already-pushed array and appends the message again, so the fresh state
array carries the user turn twice. -/
structure SubmitInit where
  messages : List CoreMessage
  state : List CoreMessage
  aliased : Bool
  userTurn : Option CoreMessage
  deriving DecidableEq, Repr, Inhabited

/-- Lines 28–46 of `submitUserInput`: windowing, derivation of the user
content from skip/form data, and the conditional push/update. `formContent`
stands for `JSON.stringify(Object.fromEntries(formData))` (None when
`formData` is null). -/
def submitInit (history : List CoreMessage) (formContent : Option String)
    (skip : Bool) : SubmitInit :=
  let windowed := window history
  let content : Option String := if skip then some skipSentinel else formContent
  match content with
  | some c =>
    let message : CoreMessage := { role := "user", content := MsgContent.str c }
    { messages := windowed ++ [message],
      state := windowed ++ [message] ++ [message],
      aliased := false,
      userTurn := some message }
  | none =>
    { messages := windowed, state := windowed, aliased := true, userTurn := none }

/-- The routing decision `{next: "proceed" | "inquire"}`. -/
inductive NextAction where
  | proceed
  | inquire
  deriving DecidableEq, Repr, Inhabited

/-- `action.object` of `processEvents`. -/
structure Decision where
  next : NextAction
  deriving DecidableEq, Repr, Inhabited

/-- The default `{ object: { next: "proceed" } }`. -/
def defaultAction : Decision := { next := NextAction.proceed }

/-- The decision actually used: the default when `skip`, otherwise
`(await requirementsManager(messages)) ?? default`. -/
def effAction (skip : Bool) (rmResult : Option Decision) : Decision :=
  if skip then defaultAction else rmResult.getD defaultAction

/-- The template-literal text of `` `inquiry: ${inquiry?.question}` ``:
`inquiry` may be `undefined` (outer `none`) and its `question` field may be
absent (inner `none`); JavaScript renders both as the string "undefined". -/
def questionText : Option (Option String) → String
  | some (some q) => q
  | some none => "undefined"
  | none => "undefined"

/-- A UI-stream operation an agent with a borrowed `uiStream` handle may
issue: replace or append, never the terminal `done`. -/
inductive AgentUIOp where
  | update (n : UINode)
  | append (n : UINode)
  deriving DecidableEq, Repr, Inhabited

/-- Reinterpret an agent-issued operation as a UI-stream operation. -/
def AgentUIOp.toUIOp : AgentUIOp → UIOp
  | .update n => UIOp.update n
  | .append n => UIOp.append n

/-- Modelled from the spec: the bodies of `requirementsManager` (Decision
Agent), `inquire` (Inquiry Agent) and `aiSuggestor` (Suggestion Agent) are
not among the sources, only their call sites are. Per the spec each issues
one model call: the classifier may yield no structured result (`rmResult`),
the inquiry returns a question object that may be absent or lack its
`question` field (`inquiryResult`), and inquire/aiSuggestor stream content
into the shared UI node with replace/append only, never calling `done` on it
(`inquiryUIOps`, `suggestorUIOps`). `attempts` lists the model streams the
successive `writer` calls would consume. -/
structure AgentEnv where
  rmResult : Option Decision
  inquiryResult : Option (Option String)
  inquiryUIOps : List AgentUIOp
  suggestorUIOps : List AgentUIOp
  attempts : List (List Delta)
  deriving DecidableEq, Repr, Inhabited

/-- The effects accumulated by the `while (code.length === 0)` retry loop:
the `(messages, stream)` pair of each `writer` call in execution order, the
concatenated UI and code stream traces, the accepted attempt's result, and
the message list it left behind. -/
structure LoopResult where
  attemptsRun : List (List CoreMessage × List Delta)
  uiOps : List UIOp
  codeOps : List (ValOp String)
  final : WriterResult
  messagesAfter : List CoreMessage
  deriving DecidableEq, Repr, Inhabited

/-- The retry loop of `processEvents`: call `writer`, and repeat while the
returned text is empty. The loop in the source is unbounded; here it is
driven by the finite list of model streams the environment provides, and
returns `none` when that list is exhausted with the text still empty (the
source loop would keep running). -/
def retryLoop (msgs : List CoreMessage) : List (List Delta) → Option LoopResult
  | [] => none
  | s :: rest =>
    let r := writerRun msgs s
    if r.fullResponse.length = 0 then
      match retryLoop r.messagesOut rest with
      | some lr => some { lr with attemptsRun := (msgs, s) :: lr.attemptsRun,
                                  uiOps := r.uiOps ++ lr.uiOps,
                                  codeOps := r.codeOps ++ lr.codeOps }
      | none => none
    else
      some { attemptsRun := [(msgs, s)], uiOps := r.uiOps, codeOps := r.codeOps,
             final := r, messagesAfter := r.messagesOut }

/-- Everything one completed exchange did: whether and with what the agents
were called, the per-stream operation traces (`isGenerating`, `isCollapsed`,
`uiStream`, `codeStream`), whether the code stream was even created, the
executed attempts, and the conversation state passed to `aiState.done`. -/
structure ExchangeResult where
  rmInvoked : Bool
  action : Decision
  rmMessages : Option (List CoreMessage)
  inquiryMessages : Option (List CoreMessage)
  suggestorMessages : Option (List CoreMessage)
  suggestorRan : Bool
  genOps : List (ValOp Bool)
  collapsedOps : List (ValOp Bool)
  uiOps : List UIOp
  codeCreated : Bool
  codeOps : List (ValOp String)
  attemptsRun : List (List CoreMessage × List Delta)
  finalState : List CoreMessage
  deriving DecidableEq, Repr, Inhabited

/-- `processEvents` of `submitUserInput` (lines 48–109), including the
windowing prologue of `submitUserInput`. `none` exactly when the generate
branch exhausts `env.attempts` with the text still empty, i.e. when the
unbounded source loop would not have terminated on the provided streams. -/
def processEvents (history : List CoreMessage) (formContent : Option String)
    (skip : Bool) (env : AgentEnv) : Option ExchangeResult :=
  let init := submitInit history formContent skip
  let action := effAction skip env.rmResult
  if action.next = NextAction.inquire then
    some { rmInvoked := !skip
         , action := action
         , rmMessages := if skip then none else some init.messages
         , inquiryMessages := some init.messages
         , suggestorMessages := none
         , suggestorRan := false
         , genOps := [ValOp.done none]
         , collapsedOps := [ValOp.done (some false)]
         , uiOps := env.inquiryUIOps.map AgentUIOp.toUIOp ++ [UIOp.done]
         , codeCreated := false
         , codeOps := []
         , attemptsRun := []
         , finalState := (if init.aliased then init.messages else init.state) ++
             [{ role := "assistant",
                content := MsgContent.str ("inquiry: " ++ questionText env.inquiryResult) }]
         }
  else
    match retryLoop init.messages env.attempts with
    | none => none
    | some lr =>
      let errorOccurred := lr.final.hasError
      some { rmInvoked := !skip
           , action := action
           , rmMessages := if skip then none else some init.messages
           , inquiryMessages := none
           , suggestorMessages := if errorOccurred then none else some lr.messagesAfter
           , suggestorRan := !errorOccurred
           , genOps := [ValOp.done (some false)]
           , collapsedOps := [ValOp.done (some true)]
           , uiOps := UIOp.update UINode.spinnerThinking :: lr.uiOps ++
               (if errorOccurred then []
                else env.suggestorUIOps.map AgentUIOp.toUIOp ++ [UIOp.append UINode.followupSection]) ++
               [UIOp.done]
           , codeCreated := true
           , codeOps := lr.codeOps
           , attemptsRun := lr.attemptsRun
           , finalState := (if init.aliased then lr.messagesAfter else init.state) ++
               [{ role := "assistant", content := MsgContent.str lr.final.fullResponse }]
           }

/-- Whether a value-stream operation is the terminal `done`. -/
def ValOp.isDone : ValOp α → Bool
  | .done _ => true
  | .update _ => false

/-- How many `done` operations a value-stream trace contains. -/
def valDoneCount (ops : List (ValOp α)) : Nat :=
  (ops.filter ValOp.isDone).length

/-- Whether the last operation of a value-stream trace is its `done`
(so nothing was issued to the stream after it). -/
def valDoneLast (ops : List (ValOp α)) : Bool :=
  match ops.getLast? with
  | some o => o.isDone
  | none => false

/-- Whether a UI-stream operation is the terminal `done`. -/
def UIOp.isDone : UIOp → Bool
  | .done => true
  | .update _ => false
  | .append _ => false

/-- How many `done` operations a UI-stream trace contains. -/
def uiDoneCount (ops : List UIOp) : Nat :=
  (ops.filter UIOp.isDone).length

/-- Whether the last operation of a UI-stream trace is its `done`. -/
def uiDoneLast (ops : List UIOp) : Bool :=
  match ops.getLast? with
  | some o => o.isDone
  | none => false

/-- The value a value-stream consumer observes after the trace: `update v`
replaces the current value, `done (some v)` commits `v`, `done none`
commits the current value (a `done()` call with no argument). -/
def finalValue (init : α) : List (ValOp α) → α
  | [] => init
  | .update v :: rest => finalValue v rest
  | .done (some v) :: rest => finalValue v rest
  | .done none :: rest => finalValue init rest

/-- The value carried by the last `update` of a value-stream trace. -/
def lastCodeValue : List (ValOp String) → Option String
  | [] => none
  | ValOp.update v :: rest => some ((lastCodeValue rest).getD v)
  | ValOp.done _ :: rest => lastCodeValue rest

/-- Concatenation of a fragment list in emission order. -/
def strConcat : List String → String
  | [] => ""
  | f :: rest => f ++ strConcat rest

/-- The code-stream updates produced when fragments arrive one by one on
top of an already accumulated buffer `acc`: each arrival pushes the
concatenation so far. -/
def prefixUpdates (acc : String) : List String → List (ValOp String)
  | [] => []
  | f :: rest => ValOp.update (acc ++ f) :: prefixUpdates (acc ++ f) rest

/-- The tool invocations carried by a model stream, in emission order. -/
def streamToolCalls : List Delta → List ToolCall
  | [] => []
  | Delta.toolCall c :: rest => c :: streamToolCalls rest
  | _ :: rest => streamToolCalls rest

/-- How many turns of a message list carry a given role. -/
def countRole (role : String) (msgs : List CoreMessage) : Nat :=
  (msgs.filter fun m => m.role = role).length

/-- The attempts of a loop run are sequential: the first starts from the
initial message list, and each next one starts from the message list the
previous `writer` call returned. -/
def seqThreaded (msgs0 : List CoreMessage) :
    List (List CoreMessage × List Delta) → Prop
  | [] => True
  | (m, s) :: rest => m = msgs0 ∧ seqThreaded (writerRun m s).messagesOut rest

/-- The error notice occurs somewhere inside a string. -/
def hasNoticeInfix (s : String) : Prop :=
  ∃ a b, s = a ++ (errorNotice ++ b)

/-! ### Helper lemmas -/

theorem strLength_zero_iff (s : String) : s.length = 0 ↔ s = "" := by
  cases s with
  | mk l => rw [String.ext_iff]; simp [String.length]

theorem uiDoneCount_append (a b : List UIOp) :
    uiDoneCount (a ++ b) = uiDoneCount a + uiDoneCount b := by
  simp [uiDoneCount, List.filter_append]

theorem uiDoneCount_map_agent (l : List AgentUIOp) :
    uiDoneCount (l.map AgentUIOp.toUIOp) = 0 := by
  induction l with
  | nil => rfl
  | cons x rest ih => cases x <;> simpa [uiDoneCount, AgentUIOp.toUIOp, UIOp.isDone] using ih

theorem uiDoneLast_append_done (a : List UIOp) :
    uiDoneLast (a ++ [UIOp.done]) = true := by
  simp [uiDoneLast, List.getLast?_concat, UIOp.isDone]

theorem valDoneLast_singleton (v : Option α) :
    valDoneLast [ValOp.done v] = true := by
  simp [valDoneLast, ValOp.isDone]

theorem writerStep_uiDoneCount (st : WriterState) (d : Delta) :
    uiDoneCount (writerStep st d).uiOps = uiDoneCount st.uiOps := by
  cases d with
  | textDelta s =>
    by_cases h : 0 < s.length
    · by_cases h2 : st.fullResponse.length = 0
      · simp [writerStep, h, h2, uiDoneCount_append, uiDoneCount, UIOp.isDone]
      · simp [writerStep, h, h2, uiDoneCount]
    · simp [writerStep, h]
  | toolCall c => rfl
  | toolResult r => rfl
  | error => rfl

theorem foldl_writerStep_uiDoneCount (stream : List Delta) (st : WriterState) :
    uiDoneCount ((stream.foldl writerStep st).uiOps) = uiDoneCount st.uiOps := by
  induction stream generalizing st with
  | nil => rfl
  | cons d rest ih => rw [List.foldl_cons, ih, writerStep_uiDoneCount]

theorem writerRun_uiDoneCount (msgs : List CoreMessage) (stream : List Delta) :
    uiDoneCount (writerRun msgs stream).uiOps = 0 := by
  show uiDoneCount ((writerFold stream).uiOps ++ [UIOp.update UINode.nullNode]) = 0
  rw [uiDoneCount_append, writerFold, foldl_writerStep_uiDoneCount]
  rfl

theorem retryLoop_uiDoneCount :
    ∀ (attempts : List (List Delta)) (msgs : List CoreMessage) (lr : LoopResult),
      retryLoop msgs attempts = some lr → uiDoneCount lr.uiOps = 0 := by
  intro attempts
  induction attempts with
  | nil => intro msgs lr h; simp [retryLoop] at h
  | cons s rest ih =>
    intro msgs lr h
    rw [retryLoop] at h
    by_cases hc : (writerRun msgs s).fullResponse.length = 0
    · rw [if_pos hc] at h
      cases hrec : retryLoop (writerRun msgs s).messagesOut rest with
      | none => rw [hrec] at h; exact absurd h (by simp)
      | some lr' =>
        rw [hrec] at h
        cases h
        simpa [uiDoneCount_append, writerRun_uiDoneCount] using ih _ _ hrec
    · rw [if_neg hc] at h
      cases h
      simp [writerRun_uiDoneCount]

theorem writerRun_fullResponse (msgs : List CoreMessage) (stream : List Delta) :
    (writerRun msgs stream).fullResponse = attemptText stream := rfl

theorem retryLoop_nonempty_head (msgs : List CoreMessage) (s : List Delta)
    (rest : List (List Delta)) (h : attemptText s ≠ "") :
    retryLoop msgs (s :: rest) =
      some { attemptsRun := [(msgs, s)], uiOps := (writerRun msgs s).uiOps,
             codeOps := (writerRun msgs s).codeOps, final := writerRun msgs s,
             messagesAfter := (writerRun msgs s).messagesOut } := by
  have hne : ¬(writerRun msgs s).fullResponse.length = 0 := fun hc =>
    h ((strLength_zero_iff _).mp hc)
  rw [retryLoop, if_neg hne]

theorem retryLoop_final_nonempty :
    ∀ (attempts : List (List Delta)) (msgs : List CoreMessage) (lr : LoopResult),
      retryLoop msgs attempts = some lr → lr.final.fullResponse ≠ "" := by
  intro attempts
  induction attempts with
  | nil => intro msgs lr h; simp [retryLoop] at h
  | cons s rest ih =>
    intro msgs lr h
    rw [retryLoop] at h
    by_cases hc : (writerRun msgs s).fullResponse.length = 0
    · rw [if_pos hc] at h
      cases hrec : retryLoop (writerRun msgs s).messagesOut rest with
      | none => rw [hrec] at h; exact absurd h (by simp)
      | some lr' => rw [hrec] at h; cases h; simpa using ih _ _ hrec
    · rw [if_neg hc] at h
      cases h
      simpa [strLength_zero_iff] using hc

theorem foldl_textDeltas (frags : List String) (st : WriterState)
    (h : ∀ f ∈ frags, f ≠ "") :
    ((frags.map Delta.textDelta).foldl writerStep st).fullResponse
        = st.fullResponse ++ strConcat frags ∧
    ((frags.map Delta.textDelta).foldl writerStep st).codeOps
        = st.codeOps ++ prefixUpdates st.fullResponse frags ∧
    ((frags.map Delta.textDelta).foldl writerStep st).toolCalls = st.toolCalls ∧
    ((frags.map Delta.textDelta).foldl writerStep st).toolResponses = st.toolResponses ∧
    ((frags.map Delta.textDelta).foldl writerStep st).hasError = st.hasError := by
  induction frags generalizing st with
  | nil => simp [strConcat, prefixUpdates, String.append_empty]
  | cons f rest ih =>
    have hf : f ≠ "" := h f (List.mem_cons_self f rest)
    have hlen : 0 < f.length := by
      cases Nat.eq_zero_or_pos f.length with
      | inl h0 => exact absurd ((strLength_zero_iff f).mp h0) hf
      | inr h0 => exact h0
    have hstep : writerStep st (Delta.textDelta f) =
        { st with fullResponse := st.fullResponse ++ f,
                  uiOps := if st.fullResponse.length = 0 ∧ 0 < f.length then
                      st.uiOps ++ [UIOp.update UINode.codeSection,
                                   UIOp.append UINode.generatingSpinner]
                    else st.uiOps,
                  codeOps := st.codeOps ++ [ValOp.update (st.fullResponse ++ f)] } := by
      simp [writerStep, hlen]
    obtain ⟨ih1, ih2, ih3, ih4, ih5⟩ :=
      ih (writerStep st (Delta.textDelta f)) (fun g hg => h g (List.mem_cons_of_mem f hg))
    rw [List.map_cons, List.foldl_cons]
    refine ⟨?_, ?_, ?_, ?_, ?_⟩
    · rw [ih1, hstep]; simp [strConcat, String.append_assoc]
    · rw [ih2, hstep]; simp [prefixUpdates, List.append_assoc]
    · rw [ih3, hstep]
    · rw [ih4, hstep]
    · rw [ih5, hstep]

theorem writerFold_textDeltas (frags : List String) (h : ∀ f ∈ frags, f ≠ "") :
    (writerFold (frags.map Delta.textDelta)).fullResponse = strConcat frags ∧
    (writerFold (frags.map Delta.textDelta)).codeOps = prefixUpdates "" frags ∧
    (writerFold (frags.map Delta.textDelta)).toolCalls = [] ∧
    (writerFold (frags.map Delta.textDelta)).toolResponses = [] ∧
    (writerFold (frags.map Delta.textDelta)).hasError = false := by
  obtain ⟨h1, h2, h3, h4, h5⟩ := foldl_textDeltas frags initWriterState h
  refine ⟨?_, ?_, ?_, ?_, ?_⟩ <;>
    simp_all [writerFold, initWriterState, String.empty_append]

theorem strConcat_cons_ne_empty (f : String) (rest : List String) (hf : f ≠ "") :
    strConcat (f :: rest) ≠ "" := by
  simp only [strConcat]
  intro h
  have hlen : (f ++ strConcat rest).length = 0 := by rw [h]; rfl
  rw [String.length_append] at hlen
  exact hf ((strLength_zero_iff f).mp (Nat.eq_zero_of_add_eq_zero_right hlen))

theorem foldl_toolEffects (stream : List Delta) (st : WriterState) :
    ((stream.foldl writerStep st).toolCalls = st.toolCalls ++ streamToolCalls stream) ∧
    ((stream.foldl writerStep st).toolResponses = st.toolResponses) := by
  induction stream generalizing st with
  | nil => simp [streamToolCalls]
  | cons d rest ih =>
    rw [List.foldl_cons]
    obtain ⟨ih1, ih2⟩ := ih (writerStep st d)
    constructor
    · rw [ih1]
      cases d with
      | textDelta s =>
        by_cases hl : 0 < s.length <;> simp [writerStep, hl, streamToolCalls]
      | toolCall c => simp [writerStep, streamToolCalls]
      | toolResult r => simp [writerStep, streamToolCalls]
      | error => simp [writerStep, streamToolCalls]
    · rw [ih2]
      cases d with
      | textDelta s => by_cases hl : 0 < s.length <;> simp [writerStep, hl]
      | toolCall c => rfl
      | toolResult r => rfl
      | error => rfl

theorem writerStep_hasError_mono (st : WriterState) (d : Delta)
    (h : st.hasError = true) : (writerStep st d).hasError = true := by
  cases d with
  | textDelta s => by_cases hl : 0 < s.length <;> simp [writerStep, hl, h]
  | toolCall c => exact h
  | toolResult r => exact h
  | error => rfl

theorem foldl_hasError_mono (stream : List Delta) (st : WriterState)
    (h : st.hasError = true) : (stream.foldl writerStep st).hasError = true := by
  induction stream generalizing st with
  | nil => exact h
  | cons d rest ih => exact ih _ (writerStep_hasError_mono st d h)

theorem writerFold_error_hasError (pre post : List Delta) :
    (writerFold (pre ++ Delta.error :: post)).hasError = true := by
  rw [writerFold, List.foldl_append, List.foldl_cons]
  exact foldl_hasError_mono post _ rfl

theorem hasNoticeInfix_append (s t : String) (h : hasNoticeInfix s) :
    hasNoticeInfix (s ++ t) := by
  obtain ⟨a, b, rfl⟩ := h
  exact ⟨a, b ++ t, by simp [String.append_assoc]⟩

theorem writerStep_notice (st : WriterState) (d : Delta)
    (h : hasNoticeInfix st.fullResponse) :
    hasNoticeInfix (writerStep st d).fullResponse := by
  cases d with
  | textDelta s =>
    by_cases hl : 0 < s.length
    · simpa [writerStep, hl] using hasNoticeInfix_append _ s h
    · simpa [writerStep, hl] using h
  | toolCall c => exact h
  | toolResult r => exact h
  | error => exact hasNoticeInfix_append _ _ h

theorem writerStep_error_notice (st : WriterState) :
    hasNoticeInfix (writerStep st Delta.error).fullResponse :=
  ⟨st.fullResponse, "", by simp [writerStep, String.append_empty]⟩

theorem foldl_notice (stream : List Delta) (st : WriterState)
    (h : hasNoticeInfix st.fullResponse) :
    hasNoticeInfix ((stream.foldl writerStep st).fullResponse) := by
  induction stream generalizing st with
  | nil => exact h
  | cons d rest ih => exact ih _ (writerStep_notice st d h)

theorem attemptText_error_notice (pre post : List Delta) :
    hasNoticeInfix (attemptText (pre ++ Delta.error :: post)) := by
  rw [attemptText, writerFold, List.foldl_append, List.foldl_cons]
  exact foldl_notice post _ (writerStep_error_notice _)

theorem notice_ne_empty (s : String) (h : hasNoticeInfix s) : s ≠ "" := by
  obtain ⟨a, b, rfl⟩ := h
  intro hc
  have hlen := congrArg String.length hc
  rw [String.length_append, String.length_append] at hlen
  have h40 : 0 < errorNotice.length := by decide
  have h0 : ("" : String).length = 0 := rfl
  omega

theorem dropLast_cons_of_ne (x : α) (l : List α) (h : l ≠ []) :
    (x :: l).dropLast = x :: l.dropLast := by
  cases l with
  | nil => exact absurd rfl h
  | cons a t => rfl

theorem lastCodeValue_prefixUpdates (frags : List String) (acc : String)
    (h : frags ≠ []) :
    lastCodeValue (prefixUpdates acc frags) = some (acc ++ strConcat frags) := by
  induction frags generalizing acc with
  | nil => exact absurd rfl h
  | cons f rest ih =>
    cases rest with
    | nil => simp [prefixUpdates, lastCodeValue, strConcat, String.append_empty]
    | cons g t =>
      rw [prefixUpdates, lastCodeValue, ih (acc ++ f) (by simp)]
      simp [strConcat, String.append_assoc]

theorem uiDoneCount_shape (a : List UIOp) (x : UINode) (b : List UIOp)
    (ha : uiDoneCount a = 0) (hb : uiDoneCount b = 0) :
    uiDoneCount (UIOp.update x :: (a ++ b ++ [UIOp.done])) = 1 := by
  have hsh : UIOp.update x :: (a ++ b ++ [UIOp.done]) =
      [UIOp.update x] ++ a ++ b ++ [UIOp.done] := by simp
  rw [hsh, uiDoneCount_append, uiDoneCount_append, uiDoneCount_append, ha, hb]
  simp [uiDoneCount, UIOp.isDone]

theorem retryLoop_head_messages :
    ∀ (attempts : List (List Delta)) (msgs : List CoreMessage) (lr : LoopResult),
      retryLoop msgs attempts = some lr →
      ∀ p, lr.attemptsRun.head? = some p → p.1 = msgs := by
  intro attempts
  cases attempts with
  | nil => intro msgs lr h; simp [retryLoop] at h
  | cons s rest =>
    intro msgs lr h p hp
    rw [retryLoop] at h
    by_cases hc : (writerRun msgs s).fullResponse.length = 0
    · rw [if_pos hc] at h
      cases hrec : retryLoop (writerRun msgs s).messagesOut rest with
      | none => rw [hrec] at h; exact absurd h (by simp)
      | some lr' =>
        rw [hrec] at h; cases h
        simp at hp
        rw [← hp]
    · rw [if_neg hc] at h; cases h
      simp at hp
      rw [← hp]

theorem writerRun_messagesOut_no_tools (msgs : List CoreMessage)
    (stream : List Delta) (h : (writerFold stream).toolResponses = []) :
    (writerRun msgs stream).messagesOut = msgs ++
      [{ role := "assistant",
         content := MsgContent.assistantParts (writerFold stream).fullResponse
           (writerFold stream).toolCalls }] := by
  simp [writerRun, h]

theorem countRole_append (role : String) (a b : List CoreMessage) :
    countRole role (a ++ b) = countRole role a + countRole role b := by
  simp [countRole, List.filter_append]

theorem countRole_assistant_user (c : MsgContent) :
    countRole "assistant" [{ role := "user", content := c }] = 0 := by
  have hne : ¬("user" : String) = "assistant" := by decide
  simp [countRole, List.filter_cons, hne]

theorem countRole_assistant_one (c : MsgContent) :
    countRole "assistant" [{ role := "assistant", content := c }] = 1 := by
  simp [countRole, List.filter_cons]

theorem submitInit_base_count (history : List CoreMessage)
    (formContent : Option String) (skip : Bool) :
    countRole "assistant" (submitInit history formContent skip).messages
        = countRole "assistant" (window history) ∧
    countRole "assistant" (submitInit history formContent skip).state
        = countRole "assistant" (window history) := by
  rw [submitInit]
  split
  · have hne : ¬("user" : String) = "assistant" := by decide
    constructor <;>
      simp [countRole, List.filter_append, List.filter_cons, hne]
  · exact ⟨rfl, rfl⟩

theorem writerStep_no_followup (st : WriterState) (d : Delta)
    (h : UIOp.append UINode.followupSection ∉ st.uiOps) :
    UIOp.append UINode.followupSection ∉ (writerStep st d).uiOps := by
  cases d with
  | textDelta s =>
    by_cases hl : 0 < s.length
    · by_cases h0 : st.fullResponse.length = 0
      · simp [writerStep, hl, h0, List.mem_append, h]
      · simpa [writerStep, hl, h0] using h
    · simpa [writerStep, hl] using h
  | toolCall c => exact h
  | toolResult r => exact h
  | error => exact h

theorem foldl_no_followup (stream : List Delta) (st : WriterState)
    (h : UIOp.append UINode.followupSection ∉ st.uiOps) :
    UIOp.append UINode.followupSection ∉ (stream.foldl writerStep st).uiOps := by
  induction stream generalizing st with
  | nil => exact h
  | cons d rest ih => exact ih _ (writerStep_no_followup st d h)

theorem writerRun_no_followup (msgs : List CoreMessage) (stream : List Delta) :
    UIOp.append UINode.followupSection ∉ (writerRun msgs stream).uiOps := by
  have hf : UIOp.append UINode.followupSection ∉ (writerFold stream).uiOps := by
    rw [writerFold]
    exact foldl_no_followup stream initWriterState (by simp [initWriterState])
  show UIOp.append UINode.followupSection ∉
    (writerFold stream).uiOps ++ [UIOp.update UINode.nullNode]
  simp [List.mem_append, hf]

theorem retryLoop_no_followup :
    ∀ (attempts : List (List Delta)) (msgs : List CoreMessage) (lr : LoopResult),
      retryLoop msgs attempts = some lr →
      UIOp.append UINode.followupSection ∉ lr.uiOps := by
  intro attempts
  induction attempts with
  | nil => intro msgs lr h; simp [retryLoop] at h
  | cons s rest ih =>
    intro msgs lr h
    rw [retryLoop] at h
    by_cases hc : (writerRun msgs s).fullResponse.length = 0
    · rw [if_pos hc] at h
      cases hrec : retryLoop (writerRun msgs s).messagesOut rest with
      | none => rw [hrec] at h; exact absurd h (by simp)
      | some lr' =>
        rw [hrec] at h; cases h
        have h1 := writerRun_no_followup msgs s
        have h2 := ih _ _ hrec
        simp [List.mem_append, h1, h2]
    · rw [if_neg hc] at h; cases h
      exact writerRun_no_followup msgs s

theorem writerRun_hasError (msgs : List CoreMessage) (stream : List Delta) :
    (writerRun msgs stream).hasError = (writerFold stream).hasError := rfl

/-! ### Claims -/

/-- C1: for every generate-branch exchange in which each of the first N
calls to the writer returns an empty text buffer and call N+1 returns a
non-empty one, the orchestrator's retry loop performs exactly N+1 writer
attempts, runs them sequentially (each attempt after the first starts from
the message list the previous attempt returned), terminates after attempt
N+1, and never proceeds past the loop while the accumulated text is empty. -/
theorem c1_retry_loop (msgs : List CoreMessage) (attempts : List (List Delta))
    (N : Nat) (hN : N < attempts.length)
    (hempty : ∀ s ∈ attempts.take N, attemptText s = "")
    (hfull : attemptText (attempts.getD N []) ≠ "") :
    ∃ lr, retryLoop msgs attempts = some lr ∧
      lr.attemptsRun.map Prod.snd = attempts.take (N + 1) ∧
      lr.attemptsRun.length = N + 1 ∧
      seqThreaded msgs lr.attemptsRun ∧
      (∀ p ∈ lr.attemptsRun.dropLast, attemptText p.2 = "") ∧
      lr.final.fullResponse = attemptText (attempts.getD N []) ∧
      lr.final.fullResponse ≠ "" := by
  induction N generalizing msgs attempts with
  | zero =>
    cases attempts with
    | nil => exact absurd hN (by simp)
    | cons s rest =>
      have hs : attemptText s ≠ "" := by simpa using hfull
      refine ⟨_, retryLoop_nonempty_head msgs s rest hs, ?_, ?_, ?_, ?_, ?_, ?_⟩
      · simp
      · simp
      · exact ⟨rfl, trivial⟩
      · simp
      · simpa using (writerRun_fullResponse msgs s)
      · simpa [writerRun_fullResponse] using hs
  | succ n ih =>
    cases attempts with
    | nil => exact absurd hN (by simp)
    | cons s rest =>
      have hs : attemptText s = "" := hempty s (by simp)
      have hN' : n < rest.length := by simpa using hN
      have hempty' : ∀ x ∈ rest.take n, attemptText x = "" := fun x hx =>
        hempty x (by simp [hx])
      have hfull' : attemptText (rest.getD n []) ≠ "" := by simpa using hfull
      obtain ⟨lr', hrec, m1, m2, m3, m4, m5, m6⟩ :=
        ih (writerRun msgs s).messagesOut rest hN' hempty' hfull'
      have hcond : (writerRun msgs s).fullResponse.length = 0 := by
        rw [writerRun_fullResponse, hs]; rfl
      have heq : retryLoop msgs (s :: rest) =
          some { lr' with attemptsRun := (msgs, s) :: lr'.attemptsRun,
                          uiOps := (writerRun msgs s).uiOps ++ lr'.uiOps,
                          codeOps := (writerRun msgs s).codeOps ++ lr'.codeOps } := by
        rw [retryLoop, if_pos hcond, hrec]
      refine ⟨_, heq, ?_, ?_, ?_, ?_, ?_, ?_⟩
      · simp [m1]
      · simp [m2]
      · exact ⟨rfl, m3⟩
      · have hne : lr'.attemptsRun ≠ [] := by
          intro hnil; rw [hnil] at m2; exact absurd m2.symm (by simp)
        intro p hp
        rw [dropLast_cons_of_ne _ _ hne] at hp
        rcases List.mem_cons.mp hp with hp | hp
        · rw [hp]; exact hs
        · exact m4 p hp
      · simpa using m5
      · exact m6

/-- Witness for C1: with an empty first attempt and a second attempt whose
stream carries the fragment "x", the loop runs exactly the two attempts and
accepts the second. -/
theorem c1_retry_loop_witness :
    ∃ lr, retryLoop [] [[], [Delta.textDelta "x"]] = some lr ∧
      lr.attemptsRun.map Prod.snd = [[], [Delta.textDelta "x"]].take 2 ∧
      lr.attemptsRun.length = 2 ∧
      seqThreaded [] lr.attemptsRun ∧
      (∀ p ∈ lr.attemptsRun.dropLast, attemptText p.2 = "") ∧
      lr.final.fullResponse = attemptText ([[], [Delta.textDelta "x"]].getD 1 []) ∧
      lr.final.fullResponse ≠ "" :=
  c1_retry_loop [] [[], [Delta.textDelta "x"]] 1 (by decide) (by decide) (by decide)

/-- C2: for every completed exchange (inquire or generate branch), each of
the three streams isGenerating, component (the UI stream) and isCollapsed
receives exactly one done call, and no update or append is issued to it
after its done. -/
theorem c2_streams_done_once (history : List CoreMessage)
    (formContent : Option String) (skip : Bool) (env : AgentEnv)
    (r : ExchangeResult) (h : processEvents history formContent skip env = some r) :
    valDoneCount r.genOps = 1 ∧ valDoneLast r.genOps = true ∧
    valDoneCount r.collapsedOps = 1 ∧ valDoneLast r.collapsedOps = true ∧
    uiDoneCount r.uiOps = 1 ∧ uiDoneLast r.uiOps = true := by
  simp only [processEvents] at h
  split at h
  · cases h
    refine ⟨rfl, valDoneLast_singleton _, rfl, valDoneLast_singleton _, ?_, ?_⟩
    · simp [uiDoneCount_append, uiDoneCount_map_agent]
      rfl
    · exact uiDoneLast_append_done _
  · split at h
    · exact absurd h (by simp)
    · rename_i lr hrec
      cases h
      have h1 := retryLoop_uiDoneCount env.attempts _ _ hrec
      dsimp only
      refine ⟨rfl, valDoneLast_singleton _, rfl, valDoneLast_singleton _, ?_, ?_⟩
      · split
        · exact uiDoneCount_shape _ _ _ h1 rfl
        · refine uiDoneCount_shape _ _ _ h1 ?_
          rw [uiDoneCount_append, uiDoneCount_map_agent]
          rfl
      · exact uiDoneLast_append_done _

/-- Witness for C2: the concrete skip exchange with a single one-fragment
attempt completes, and all three streams are done exactly once, last. -/
theorem c2_streams_done_once_witness :
    valDoneCount ((processEvents [] none true
        { rmResult := none, inquiryResult := none, inquiryUIOps := [],
          suggestorUIOps := [], attempts := [[Delta.textDelta "x"]] }).getD default).genOps = 1 ∧
    valDoneLast ((processEvents [] none true
        { rmResult := none, inquiryResult := none, inquiryUIOps := [],
          suggestorUIOps := [], attempts := [[Delta.textDelta "x"]] }).getD default).genOps = true ∧
    valDoneCount ((processEvents [] none true
        { rmResult := none, inquiryResult := none, inquiryUIOps := [],
          suggestorUIOps := [], attempts := [[Delta.textDelta "x"]] }).getD default).collapsedOps = 1 ∧
    valDoneLast ((processEvents [] none true
        { rmResult := none, inquiryResult := none, inquiryUIOps := [],
          suggestorUIOps := [], attempts := [[Delta.textDelta "x"]] }).getD default).collapsedOps = true ∧
    uiDoneCount ((processEvents [] none true
        { rmResult := none, inquiryResult := none, inquiryUIOps := [],
          suggestorUIOps := [], attempts := [[Delta.textDelta "x"]] }).getD default).uiOps = 1 ∧
    uiDoneLast ((processEvents [] none true
        { rmResult := none, inquiryResult := none, inquiryUIOps := [],
          suggestorUIOps := [], attempts := [[Delta.textDelta "x"]] }).getD default).uiOps = true :=
  c2_streams_done_once [] none true
    { rmResult := none, inquiryResult := none, inquiryUIOps := [],
      suggestorUIOps := [], attempts := [[Delta.textDelta "x"]] } _ (by decide)

/-- An eleven-turn committed history, longer than the maximum window. -/
def longHistory : List CoreMessage :=
  List.replicate 11 { role := "user", content := MsgContent.str "m" }

/-- A minimal generate-branch environment: no classifier result and a
single one-fragment model stream. -/
def oneShotEnv : AgentEnv :=
  { rmResult := none, inquiryResult := none, inquiryUIOps := [],
    suggestorUIOps := [], attempts := [[Delta.textDelta "x"]] }

/-- C3 counterexample: with an eleven-turn retained history and a skip
submission, the first writer call receives eleven turns — the maximum plus
one — because the new user turn is appended after truncation, refuting
"the message list passed to agents never exceeds the maximum count after
the new user turn is appended". -/
theorem c3_counterexample :
    maxMessages < ((((processEvents longHistory none true oneShotEnv).getD
        default).attemptsRun.headD default).1).length ∧
    ((((processEvents longHistory none true oneShotEnv).getD
        default).attemptsRun.headD default).1).length = maxMessages + 1 := by
  decide

/-- C3 amended: the retained window is truncated to the most recent
maxMessages turns of the stored history before the new user turn is
appended, so the window itself never exceeds maxMessages and is a suffix
of the history; the message list handed to the decision agent, the inquiry
agent and the first writer attempt is that window plus at most the one new
user turn, hence at most maxMessages + 1 turns. -/
theorem c3_window_truncation (history : List CoreMessage)
    (formContent : Option String) (skip : Bool) (env : AgentEnv)
    (r : ExchangeResult) (h : processEvents history formContent skip env = some r) :
    (window history).length ≤ maxMessages ∧
    history = history.take (history.length - maxMessages) ++ window history ∧
    (submitInit history formContent skip).messages.length ≤ maxMessages + 1 ∧
    (∀ m, r.rmMessages = some m → m = (submitInit history formContent skip).messages) ∧
    (∀ m, r.inquiryMessages = some m → m = (submitInit history formContent skip).messages) ∧
    (∀ p, r.attemptsRun.head? = some p →
      p.1 = (submitInit history formContent skip).messages) := by
  have hwin : (window history).length ≤ maxMessages := by
    rw [window, List.length_drop]; omega
  have hsuffix : history = history.take (history.length - maxMessages) ++ window history := by
    rw [window]; exact (List.take_append_drop _ history).symm
  have hinit : (submitInit history formContent skip).messages.length ≤ maxMessages + 1 := by
    rw [submitInit]
    split
    · simp only [List.length_append, List.length_singleton]; omega
    · simp only; omega
  refine ⟨hwin, hsuffix, hinit, ?_⟩
  simp only [processEvents] at h
  split at h
  · cases h
    refine ⟨?_, ?_, ?_⟩
    · intro m hm
      split at hm
      · exact absurd hm (by simp)
      · exact (Option.some_injective _ hm).symm
    · intro m hm
      exact (Option.some_injective _ hm).symm
    · intro p hp
      exact absurd hp (by simp)
  · split at h
    · exact absurd h (by simp)
    · rename_i lr hrec
      cases h
      refine ⟨?_, ?_, ?_⟩
      · intro m hm
        split at hm
        · exact absurd hm (by simp)
        · exact (Option.some_injective _ hm).symm
      · intro m hm
        exact absurd hm (by simp)
      · intro p hp
        exact retryLoop_head_messages env.attempts _ _ hrec p hp

/-- Witness for C3's amended theorem at the concrete eleven-turn history. -/
theorem c3_window_truncation_witness :
    (window longHistory).length ≤ maxMessages ∧
    longHistory = longHistory.take (longHistory.length - maxMessages) ++ window longHistory ∧
    (submitInit longHistory none true).messages.length ≤ maxMessages + 1 ∧
    (∀ m, ((processEvents longHistory none true oneShotEnv).getD default).rmMessages = some m →
      m = (submitInit longHistory none true).messages) ∧
    (∀ m, ((processEvents longHistory none true oneShotEnv).getD default).inquiryMessages = some m →
      m = (submitInit longHistory none true).messages) ∧
    (∀ p, ((processEvents longHistory none true oneShotEnv).getD default).attemptsRun.head? = some p →
      p.1 = (submitInit longHistory none true).messages) :=
  c3_window_truncation longHistory none true oneShotEnv _ (by decide)

/-- C4 counterexample: a stream consisting of one tool-result event leaves
the ordered tool-result list empty — the event is not recorded — and no
tool turn follows the assistant turn. -/
theorem c4_counterexample :
    (writerRun [] [Delta.toolResult { id := 0 }]).toolResponses ≠ [{ id := 0 }] ∧
    (writerRun [] [Delta.toolResult { id := 0 }]).toolResponses = [] ∧
    (writerRun [] [Delta.toolResult { id := 0 }]).messagesOut =
      [{ role := "assistant", content := MsgContent.assistantParts "" [] }] := by
  decide

/-- C4 amended: within one writer attempt every tool-invocation event is
recorded in the ordered tool-call list in stream order, but tool-result
events are ignored (the tool-result case of the switch is disabled), so
the tool-result list is always empty and the conditional tool turn is
never appended; after the stream ends the finished assistant turn (text
plus tool calls) is appended to the conversation. -/
theorem c4_tool_recording (msgs : List CoreMessage) (stream : List Delta) :
    (writerRun msgs stream).toolCalls = streamToolCalls stream ∧
    (writerRun msgs stream).toolResponses = [] ∧
    (writerRun msgs stream).messagesOut = msgs ++
      [{ role := "assistant",
         content := MsgContent.assistantParts (attemptText stream)
           (streamToolCalls stream) }] := by
  obtain ⟨h1, h2⟩ := foldl_toolEffects stream initWriterState
  have htc : (writerFold stream).toolCalls = streamToolCalls stream := by
    rw [writerFold, h1]; rfl
  have htr : (writerFold stream).toolResponses = [] := by
    rw [writerFold, h2]; rfl
  refine ⟨htc, htr, ?_⟩
  rw [writerRun_messagesOut_no_tools msgs stream htr, htc]
  rfl

/-- An inquire-branch environment whose inquiry yields the question "Q?". -/
def inquireEnv : AgentEnv :=
  { rmResult := some { next := NextAction.inquire },
    inquiryResult := some (some "Q?"),
    inquiryUIOps := [], suggestorUIOps := [], attempts := [] }

/-- C5 counterexample: in a concrete inquire-branch exchange the
isGenerating stream is closed by a bare done() carrying no replacement
value, so its terminal value stays at its initial value true — not false
as the claim states. -/
theorem c5_counterexample :
    ((processEvents [] (some "f") false inquireEnv).getD default).genOps =
      [ValOp.done none] ∧
    finalValue true (((processEvents [] (some "f") false inquireEnv).getD
        default).genOps) = true := by
  decide

/-- C5 amended: for every inquire-branch exchange whose inquiry produced
question q, the committed conversation state gains exactly one assistant
turn, the last committed turn, with content "inquiry: " followed by q; the
code value stream is never created or updated; isCollapsed finishes with
terminal value false; and isGenerating is closed by a bare done() with no
value, so its terminal value remains its initial true rather than false. -/
theorem c5_inquire_commit (history : List CoreMessage)
    (formContent : Option String) (skip : Bool) (env : AgentEnv)
    (r : ExchangeResult) (q : String)
    (hq : env.inquiryResult = some (some q))
    (hbranch : (effAction skip env.rmResult).next = NextAction.inquire)
    (h : processEvents history formContent skip env = some r) :
    countRole "assistant" r.finalState
        = countRole "assistant" (window history) + 1 ∧
    r.finalState.getLast? =
      some { role := "assistant", content := MsgContent.str ("inquiry: " ++ q) } ∧
    r.codeCreated = false ∧ r.codeOps = [] ∧
    finalValue false r.collapsedOps = false ∧
    r.genOps = [ValOp.done none] ∧
    finalValue true r.genOps = true := by
  simp only [processEvents] at h
  rw [if_pos hbranch] at h
  cases h
  obtain ⟨hb1, hb2⟩ := submitInit_base_count history formContent skip
  refine ⟨?_, ?_, rfl, rfl, rfl, rfl, rfl⟩
  · rw [countRole_append]
    split
    · rw [hb1, countRole_assistant_one]
    · rw [hb2, countRole_assistant_one]
  · rw [List.getLast?_concat, hq]
    rfl

/-- Witness for C5's amended theorem at the concrete inquire exchange. -/
theorem c5_inquire_commit_witness :
    countRole "assistant" ((processEvents [] (some "f") false inquireEnv).getD
        default).finalState = countRole "assistant" (window []) + 1 ∧
    ((processEvents [] (some "f") false inquireEnv).getD
        default).finalState.getLast? =
      some { role := "assistant", content := MsgContent.str ("inquiry: " ++ "Q?") } ∧
    ((processEvents [] (some "f") false inquireEnv).getD default).codeCreated = false ∧
    ((processEvents [] (some "f") false inquireEnv).getD default).codeOps = [] ∧
    finalValue false ((processEvents [] (some "f") false inquireEnv).getD
        default).collapsedOps = false ∧
    ((processEvents [] (some "f") false inquireEnv).getD default).genOps =
      [ValOp.done none] ∧
    finalValue true ((processEvents [] (some "f") false inquireEnv).getD
        default).genOps = true :=
  c5_inquire_commit [] (some "f") false inquireEnv _ "Q?"
    (by decide) (by decide) (by decide)

/-- A generate-branch environment whose single model stream yields the two
fragments "a" and "b". -/
def twoFragEnv : AgentEnv :=
  { rmResult := none, inquiryResult := none, inquiryUIOps := [],
    suggestorUIOps := [], attempts := [[Delta.textDelta "a", Delta.textDelta "b"]] }

/-- C6: for every generate-branch exchange whose first model stream yields
only non-empty text fragments (at least one) and no error event, exactly
one writer attempt occurs, the final code text — the content of the
committed assistant turn — equals the concatenation of the fragments in
emission order, and each fragment arrival pushes the concatenation-so-far
to the code value stream. -/
theorem c6_fragment_concat (history : List CoreMessage)
    (formContent : Option String) (skip : Bool) (env : AgentEnv)
    (r : ExchangeResult) (frags : List String) (rest : List (List Delta))
    (hfr : ∀ f ∈ frags, f ≠ "") (hne : frags ≠ [])
    (hatt : env.attempts = (frags.map Delta.textDelta) :: rest)
    (hbranch : (effAction skip env.rmResult).next = NextAction.proceed)
    (h : processEvents history formContent skip env = some r) :
    r.attemptsRun.map Prod.snd = [frags.map Delta.textDelta] ∧
    r.attemptsRun.length = 1 ∧
    r.codeOps = prefixUpdates "" frags ∧
    r.finalState.getLast? =
      some { role := "assistant", content := MsgContent.str (strConcat frags) } ∧
    attemptText (frags.map Delta.textDelta) = strConcat frags := by
  obtain ⟨w1, w2, w3, w4, w5⟩ := writerFold_textDeltas frags hfr
  have htext : attemptText (frags.map Delta.textDelta) = strConcat frags := w1
  have hconc_ne : attemptText (frags.map Delta.textDelta) ≠ "" := by
    rw [htext]
    cases frags with
    | nil => exact absurd rfl hne
    | cons f t => exact strConcat_cons_ne_empty f t (hfr f (by simp))
  have hni : ¬(effAction skip env.rmResult).next = NextAction.inquire := by
    rw [hbranch]; intro hcon; cases hcon
  simp only [processEvents] at h
  rw [if_neg hni, hatt,
    retryLoop_nonempty_head (submitInit history formContent skip).messages
      (frags.map Delta.textDelta) rest hconc_ne] at h
  cases h
  refine ⟨rfl, rfl, w2, ?_, htext⟩
  rw [List.getLast?_concat, writerRun_fullResponse, htext]

/-- Witness for C6 with the fragments "a" then "b". -/
theorem c6_fragment_concat_witness :
    ((processEvents [] none true twoFragEnv).getD default).attemptsRun.map
        Prod.snd = [["a", "b"].map Delta.textDelta] ∧
    ((processEvents [] none true twoFragEnv).getD default).attemptsRun.length = 1 ∧
    ((processEvents [] none true twoFragEnv).getD default).codeOps =
      prefixUpdates "" ["a", "b"] ∧
    ((processEvents [] none true twoFragEnv).getD default).finalState.getLast? =
      some { role := "assistant", content := MsgContent.str (strConcat ["a", "b"]) } ∧
    attemptText (["a", "b"].map Delta.textDelta) = strConcat ["a", "b"] :=
  c6_fragment_concat [] none true twoFragEnv _ ["a", "b"] []
    (by decide) (by decide) (by decide) (by decide) (by decide)

/-- A generate-branch environment whose single model stream consists of one
error event. -/
def errEnv : AgentEnv :=
  { rmResult := none, inquiryResult := none, inquiryUIOps := [],
    suggestorUIOps := [], attempts := [[Delta.error]] }

/-- C7: during a writer attempt an error event sets the error flag and
appends the fixed human-readable notice to the text buffer, and the
remaining stream events are still consumed (the fold continues past the
error); since the notice makes the buffer non-empty, the orchestrator's
loop accepts the erroring attempt as final, and the suggestion agent and
its follow-up section are skipped. -/
theorem c7_error_flow (history : List CoreMessage) (formContent : Option String)
    (skip : Bool) (env : AgentEnv) (r : ExchangeResult)
    (pre post : List Delta) (rest : List (List Delta)) (msgs : List CoreMessage)
    (hatt : env.attempts = (pre ++ Delta.error :: post) :: rest)
    (hbranch : (effAction skip env.rmResult).next = NextAction.proceed)
    (h : processEvents history formContent skip env = some r) :
    (writerRun msgs (pre ++ Delta.error :: post)).hasError = true ∧
    hasNoticeInfix (writerRun msgs (pre ++ Delta.error :: post)).fullResponse ∧
    writerFold (pre ++ Delta.error :: post) =
      post.foldl writerStep (writerStep (writerFold pre) Delta.error) ∧
    r.attemptsRun.map Prod.snd = [pre ++ Delta.error :: post] ∧
    r.suggestorRan = false ∧
    r.suggestorMessages = none ∧
    UIOp.append UINode.followupSection ∉ r.uiOps := by
  have hherr : (writerFold (pre ++ Delta.error :: post)).hasError = true :=
    writerFold_error_hasError pre post
  have hnot : hasNoticeInfix (attemptText (pre ++ Delta.error :: post)) :=
    attemptText_error_notice pre post
  have hne : attemptText (pre ++ Delta.error :: post) ≠ "" :=
    notice_ne_empty _ hnot
  have hcont : writerFold (pre ++ Delta.error :: post) =
      post.foldl writerStep (writerStep (writerFold pre) Delta.error) := by
    rw [writerFold, writerFold, List.foldl_append, List.foldl_cons]
  have hni : ¬(effAction skip env.rmResult).next = NextAction.inquire := by
    rw [hbranch]; intro hcon; cases hcon
  simp only [processEvents] at h
  rw [if_neg hni, hatt, retryLoop_nonempty_head _ _ _ hne] at h
  cases h
  have hnf := writerRun_no_followup
    (submitInit history formContent skip).messages (pre ++ Delta.error :: post)
  dsimp only
  refine ⟨hherr, hnot, hcont, rfl, ?_, ?_, ?_⟩
  · rw [writerRun_hasError, hherr]
    rfl
  · rw [writerRun_hasError, hherr]
    simp
  · rw [writerRun_hasError, hherr]
    simp [hnf]

/-- Witness for C7 with a model stream consisting of exactly one error
event. -/
theorem c7_error_flow_witness :
    (writerRun [] ([] ++ Delta.error :: [])).hasError = true ∧
    hasNoticeInfix (writerRun [] ([] ++ Delta.error :: [])).fullResponse ∧
    writerFold ([] ++ Delta.error :: []) =
      List.foldl writerStep (writerStep (writerFold []) Delta.error) [] ∧
    ((processEvents [] none true errEnv).getD default).attemptsRun.map
        Prod.snd = [[] ++ Delta.error :: []] ∧
    ((processEvents [] none true errEnv).getD default).suggestorRan = false ∧
    ((processEvents [] none true errEnv).getD default).suggestorMessages = none ∧
    UIOp.append UINode.followupSection ∉
      ((processEvents [] none true errEnv).getD default).uiOps :=
  c7_error_flow [] none true errEnv _ [] [] [] []
    (by decide) (by decide) (by decide)

/-- C8: for every submission with skip = true, the decision agent
(requirementsManager) is not invoked, the decision used is exactly
{next: proceed}, the appended user turn's content is the sentinel skip
string, and the generation path runs (the collapse flag is closed with
true, the code stream is created, and the inquiry path is never taken). -/
theorem c8_skip_path (history : List CoreMessage) (formContent : Option String)
    (env : AgentEnv) (r : ExchangeResult)
    (h : processEvents history formContent true env = some r) :
    r.rmInvoked = false ∧
    r.rmMessages = none ∧
    r.action = { next := NextAction.proceed } ∧
    (submitInit history formContent true).userTurn =
      some { role := "user", content := MsgContent.str skipSentinel } ∧
    r.codeCreated = true ∧
    r.collapsedOps = [ValOp.done (some true)] ∧
    r.inquiryMessages = none := by
  have hni : ¬(effAction true env.rmResult).next = NextAction.inquire := by
    simp [effAction, defaultAction]
  simp only [processEvents] at h
  rw [if_neg hni] at h
  cases hrec : retryLoop (submitInit history formContent true).messages env.attempts with
  | none => rw [hrec] at h; exact absurd h (by simp)
  | some lr =>
    rw [hrec] at h; cases h
    dsimp only
    refine ⟨rfl, ?_, ?_, ?_, rfl, rfl, rfl⟩
    · simp
    · simp [effAction, defaultAction]
    · rw [submitInit]
      simp

/-- Witness for C8 at the concrete skip submission. -/
theorem c8_skip_path_witness :
    ((processEvents [] none true oneShotEnv).getD default).rmInvoked = false ∧
    ((processEvents [] none true oneShotEnv).getD default).rmMessages = none ∧
    ((processEvents [] none true oneShotEnv).getD default).action =
      { next := NextAction.proceed } ∧
    (submitInit [] none true).userTurn =
      some { role := "user", content := MsgContent.str skipSentinel } ∧
    ((processEvents [] none true oneShotEnv).getD default).codeCreated = true ∧
    ((processEvents [] none true oneShotEnv).getD default).collapsedOps =
      [ValOp.done (some true)] ∧
    ((processEvents [] none true oneShotEnv).getD default).inquiryMessages = none :=
  c8_skip_path [] none oneShotEnv _ (by decide)

/-- C9 counterexample: for the stream [error, textDelta "x"] the single
(and last) value pushed to the code value stream is the error notice
followed by "x" — the fragment arriving after the error pushes the buffer
including the notice, so the last pushed value does not omit it. -/
theorem c9_counterexample :
    lastCodeValue (writerRun [] [Delta.error, Delta.textDelta "x"]).codeOps =
      some (errorNotice ++ "x") ∧
    (writerRun [] [Delta.error, Delta.textDelta "x"]).codeOps =
      [ValOp.update (errorNotice ++ "x")] := by
  decide

/-- C9 amended: an error event modifies only the text buffer and the error
flag, and the code value stream is updated exclusively by text-fragment
events; when the error arrives after the last fragment, the last pushed
code value is the fragment concatenation without the notice while the
recorded assistant turn's text carries it — but a fragment arriving after
an error pushes a buffer that already contains the notice. -/
theorem c9_error_frame (msgs : List CoreMessage) (st : WriterState)
    (d : Delta) (frags : List String)
    (hfr : ∀ f ∈ frags, f ≠ "") (hne : frags ≠ []) :
    writerStep st Delta.error =
      { st with hasError := true,
                fullResponse := st.fullResponse ++ errorNotice } ∧
    ((∀ s, d ≠ Delta.textDelta s) → (writerStep st d).codeOps = st.codeOps) ∧
    lastCodeValue
        (writerRun msgs (frags.map Delta.textDelta ++ [Delta.error])).codeOps
      = some (strConcat frags) ∧
    (writerRun msgs (frags.map Delta.textDelta ++ [Delta.error])).fullResponse
      = strConcat frags ++ errorNotice ∧
    (writerRun msgs (frags.map Delta.textDelta ++ [Delta.error])).messagesOut
      = msgs ++
        [{ role := "assistant",
           content := MsgContent.assistantParts (strConcat frags ++ errorNotice) [] }] := by
  have hsplit : writerFold (frags.map Delta.textDelta ++ [Delta.error]) =
      writerStep (writerFold (frags.map Delta.textDelta)) Delta.error := by
    rw [writerFold, writerFold, List.foldl_append]
    rfl
  obtain ⟨w1, w2, w3, w4, w5⟩ := writerFold_textDeltas frags hfr
  have hcode : (writerFold (frags.map Delta.textDelta ++ [Delta.error])).codeOps
      = prefixUpdates "" frags := by rw [hsplit]; exact w2
  have hfull : (writerFold (frags.map Delta.textDelta ++ [Delta.error])).fullResponse
      = strConcat frags ++ errorNotice := by
    rw [hsplit]
    show (writerFold (frags.map Delta.textDelta)).fullResponse ++ errorNotice = _
    rw [w1]
  have htr : (writerFold (frags.map Delta.textDelta ++ [Delta.error])).toolResponses
      = [] := by rw [hsplit]; exact w4
  have htc : (writerFold (frags.map Delta.textDelta ++ [Delta.error])).toolCalls
      = [] := by rw [hsplit]; exact w3
  refine ⟨rfl, ?_, ?_, ?_, ?_⟩
  · intro hd
    cases d with
    | textDelta s => exact absurd rfl (hd s)
    | toolCall c => rfl
    | toolResult r => rfl
    | error => rfl
  · show lastCodeValue
        (writerFold (frags.map Delta.textDelta ++ [Delta.error])).codeOps = _
    rw [hcode, lastCodeValue_prefixUpdates frags "" hne, String.empty_append]
  · exact hfull
  · rw [writerRun_messagesOut_no_tools msgs _ htr, hfull, htc]

/-- Witness for C9's amended theorem with the single fragment "x" followed
by an error event. -/
theorem c9_error_frame_witness :
    writerStep initWriterState Delta.error =
      { initWriterState with
        hasError := true,
        fullResponse := initWriterState.fullResponse ++ errorNotice } ∧
    ((∀ s, Delta.error ≠ Delta.textDelta s) →
      (writerStep initWriterState Delta.error).codeOps = initWriterState.codeOps) ∧
    lastCodeValue
        (writerRun [] (["x"].map Delta.textDelta ++ [Delta.error])).codeOps
      = some (strConcat ["x"]) ∧
    (writerRun [] (["x"].map Delta.textDelta ++ [Delta.error])).fullResponse
      = strConcat ["x"] ++ errorNotice ∧
    (writerRun [] (["x"].map Delta.textDelta ++ [Delta.error])).messagesOut
      = [] ++
        [{ role := "assistant",
           content := MsgContent.assistantParts (strConcat ["x"] ++ errorNotice) [] }] :=
  c9_error_frame [] initWriterState Delta.error ["x"] (by decide) (by decide)

/-- An inquire-branch environment whose inquiry yields no question object. -/
def questionlessEnv : AgentEnv :=
  { rmResult := some { next := NextAction.inquire },
    inquiryResult := none,
    inquiryUIOps := [], suggestorUIOps := [], attempts := [] }

/-- C10: when the inquiry completes without producing a question object —
undefined, or an object without a question field — the inquire branch
still commits an assistant turn whose content is literally
"inquiry: undefined" as the last turn, and marks all three streams done;
no guard distinguishes the missing question. -/
theorem c10_missing_question (history : List CoreMessage)
    (formContent : Option String) (env : AgentEnv) (r : ExchangeResult)
    (hrm : env.rmResult = some { next := NextAction.inquire })
    (hiq : env.inquiryResult = none ∨ env.inquiryResult = some none)
    (h : processEvents history formContent false env = some r) :
    r.finalState.getLast? =
      some { role := "assistant", content := MsgContent.str "inquiry: undefined" } ∧
    valDoneCount r.genOps = 1 ∧
    valDoneCount r.collapsedOps = 1 ∧
    uiDoneCount r.uiOps = 1 := by
  have hbranch : (effAction false env.rmResult).next = NextAction.inquire := by
    simp [effAction, hrm]
  simp only [processEvents] at h
  rw [if_pos hbranch] at h
  cases h
  refine ⟨?_, rfl, rfl, ?_⟩
  · rw [List.getLast?_concat]
    rcases hiq with hiq | hiq <;> rw [hiq] <;> rfl
  · simp [uiDoneCount_append, uiDoneCount_map_agent]
    rfl

/-- Witness for C10 with an inquiry that returns no object at all. -/
theorem c10_missing_question_witness :
    ((processEvents [] none false questionlessEnv).getD default).finalState.getLast? =
      some { role := "assistant", content := MsgContent.str "inquiry: undefined" } ∧
    valDoneCount ((processEvents [] none false questionlessEnv).getD default).genOps = 1 ∧
    valDoneCount ((processEvents [] none false questionlessEnv).getD default).collapsedOps = 1 ∧
    uiDoneCount ((processEvents [] none false questionlessEnv).getD default).uiOps = 1 :=
  c10_missing_question [] none questionlessEnv _ (by decide) (Or.inl (by decide)) (by decide)

end NextGen
